import Mathlib

/-!
# Verification of the El Pollo Loco gameplay core

Shallow embedding of the gameplay logic of the repository
(`models/moveable-object.class.js`, `models/world.class.js`,
`models/character.class.js`, `models/endboss.class.js`).
Positions and speeds are JavaScript numbers modelled as rationals;
energy, ammo and counters are integers; timestamps (`Date.now()`)
are naturals.
-/

namespace ElPolloLoco

/-! ## MoveableObject: health bookkeeping
Embeds `MoveableObject.hit / isHurt / isDead`
(`models/moveable-object.class.js`, lines 136-165). -/

/-- Health-relevant state of a `MoveableObject`: `energy` and the
`lastHit` timestamp in milliseconds. -/
structure HealthState where
  energy : ℤ
  lastHit : ℤ
  deriving Repr, DecidableEq

/-- `MoveableObject.hit()`: `energy -= 10`; if the result is negative it is
clamped to `0` and `lastHit` is left unchanged, otherwise `lastHit` is set
to the current time. -/
def hit (now : ℤ) (s : HealthState) : HealthState :=
  let e := s.energy - 10
  if e < 0 then { s with energy := 0 }
  else { energy := e, lastHit := now }

/-- `MoveableObject.isHurt()`: true when less than 1000 ms have passed
since `lastHit` (`timepassed / 1000 < 1`). -/
def isHurt (now : ℤ) (s : HealthState) : Bool :=
  now - s.lastHit < 1000

/-- `MoveableObject.isDead()`: `energy === 0`. -/
def isDead (s : HealthState) : Bool :=
  s.energy = 0

/-! ## Collision primitives
Embeds `MoveableObject.isColliding`
(`models/moveable-object.class.js`, lines 112-128). -/

/-- Axis-aligned rectangle of a drawable object: position and size. -/
structure Rect where
  x : ℚ
  y : ℚ
  width : ℚ
  height : ℚ
  deriving Repr, DecidableEq

/-- The `else` branch of `isColliding`: plain AABB overlap with no inset. -/
def collidingPlain (a b : Rect) : Bool :=
  a.x + a.width > b.x ∧ a.y + a.height > b.y ∧
    a.x < b.x + b.width ∧ a.y < b.y + b.height

/-- The `this instanceof Character` branch of `isColliding`: the
character's hitbox is inset relative to its sprite box
(`x + 60 + width - 105 > mo.x`, `y + height > mo.y`,
`x + 60 < mo.x + mo.width`, `y + 130 < mo.y + mo.height`). -/
def collidingChar (c mo : Rect) : Bool :=
  c.x + 60 + c.width - 105 > mo.x ∧ c.y + c.height > mo.y ∧
    c.x + 60 < mo.x + mo.width ∧ c.y + 130 < mo.y + mo.height

/-! ## Throw input and bottle ammo
Embeds `World.handleThrowInput` (`models/world.class.js`, lines 196-210),
`World.spawnBottle` (217-236, modelled as pushing one projectile) and the
ammo-relevant fields of the `World` constructor (134-155). -/

/-- Ammo- and throw-relevant state of the `World`. `throwableObjects`
records only the number of active projectiles. -/
structure AmmoState where
  bottlesAmmo : ℤ
  maxBottlesInLevel : ℤ
  lastThrowAt : ℤ
  throwPressedPrev : Bool
  throwableObjects : ℕ
  bottles : List Rect
  deriving Repr, DecidableEq

/-- `throwCooldownMs = 300`. -/
def throwCooldownMs : ℤ := 300

/-- Initial world state: `bottlesAmmo = 0`, `lastThrowAt = 0`,
`throwPressedPrev = false`, `maxBottlesInLevel = level.bottles.length`. -/
def initAmmo (bs : List Rect) : AmmoState :=
  { bottlesAmmo := 0, maxBottlesInLevel := bs.length, lastThrowAt := 0,
    throwPressedPrev := false, throwableObjects := 0, bottles := bs }

/-- `World.handleThrowInput`: spawn one bottle exactly when the throw key
shows a rising edge, the cooldown has elapsed and ammo is available; the
returned `Bool` reports whether a projectile was spawned this tick. -/
def handleThrowInput (now : ℤ) (pressed : Bool) (s : AmmoState) :
    AmmoState × Bool :=
  let risingEdge := pressed ∧ ¬ s.throwPressedPrev
  let cooledDown := now - s.lastThrowAt ≥ throwCooldownMs
  if risingEdge ∧ cooledDown ∧ s.bottlesAmmo > 0 then
    ({ s with throwableObjects := s.throwableObjects + 1,
              bottlesAmmo := s.bottlesAmmo - 1,
              lastThrowAt := now,
              throwPressedPrev := pressed }, true)
  else
    ({ s with throwPressedPrev := pressed }, false)

/-! ## `Array.prototype.forEach` with `splice(index, 1)` inside
`checkCollisionCharacterCoin` (world.class.js 320-335) and
`checkCollisionCharacterBottle` (343-366) remove elements from the array
they are iterating. Per the ECMAScript semantics of `forEach`, the
iteration count is fixed at the original length, each visit reads the
current array at the current index, and indices beyond the shrunken
length are skipped. `forEachSplice` is that operational semantics:
`fuel` many visits, starting at index `k`, removing a matching element
and applying `f` to the accumulated state. -/

/-- One `forEach` pass over a mutating array: at each of `fuel` visits,
read index `k` of the current list; if the predicate holds, remove that
element (`splice(k, 1)`) and update the state with `f`; either way the
index advances. Out-of-range indices are skipped. -/
def forEachSplice (p : α → Bool) (f : σ → σ) :
    ℕ → ℕ → List α → σ → List α × σ
  | 0, _, cur, st => (cur, st)
  | fuel + 1, k, cur, st =>
    match cur.get? k with
    | none => forEachSplice p f fuel (k + 1) cur st
    | some a =>
      if p a then forEachSplice p f fuel (k + 1) (cur.eraseIdx k) (f st)
      else forEachSplice p f fuel (k + 1) cur st

/-- Structural description of the same pass: when an element is removed,
the element that shifts into its slot is skipped for the rest of the
tick. Proven equal to `forEachSplice` below. -/
def splicePass (p : α → Bool) (f : σ → σ) : List α → σ → List α × σ
  | [], st => ([], st)
  | a :: rest, st =>
    if p a then
      match rest with
      | [] => ([], f st)
      | b :: rest2 =>
        let r := splicePass p f rest2 (f st)
        (b :: r.1, r.2)
    else
      let r := splicePass p f rest st
      (a :: r.1, r.2)

/-- `World.checkCollisionCharacterCoin`: iterate `level.coins`, splice out
every coin the character's (inset) hitbox collides with and increment
`coinsCollected` for each. -/
def checkCollisionCharacterCoin (char : Rect) (coins : List Rect)
    (coinsCollected : ℤ) : List Rect × ℤ :=
  forEachSplice (fun c => collidingChar char c) (fun n => n + 1)
    coins.length 0 coins coinsCollected

/-- `World.updateCoinBar`: HUD percentage
`clamp(coinsCollected, 0, maxCoins) / maxCoins * 100`, and `0` when the
level defines no coins. -/
def coinBarPercentage (coinsCollected maxCoins : ℤ) : ℚ :=
  if maxCoins ≤ 0 then 0
  else ((max 0 (min coinsCollected maxCoins) : ℤ) : ℚ) / (maxCoins : ℚ) * 100

/-- `World.checkCollisionCharacterBottle`: iterate `level.bottles`, splice
out every bottle the character collides with; each pickup does
`bottlesAmmo++` followed by a clamp to `maxBottlesInLevel` when that
maximum is positive. -/
def checkCollisionCharacterBottle (char : Rect) (s : AmmoState) : AmmoState :=
  let r := forEachSplice (fun b => collidingChar char b)
    (fun a =>
      if s.maxBottlesInLevel > 0 then min (a + 1) s.maxBottlesInLevel
      else a + 1)
    s.bottles.length 0 s.bottles s.bottlesAmmo
  { s with bottles := r.1, bottlesAmmo := r.2 }

/-- Inductive invariant for the ammo state: ammo within `[0, max]` and
the remaining level bottles never exceeding the level maximum. -/
def ammoInv (s : AmmoState) : Prop :=
  0 ≤ s.bottlesAmmo ∧ s.bottlesAmmo ≤ s.maxBottlesInLevel ∧
    (s.bottles.length : ℤ) ≤ s.maxBottlesInLevel

/-- The ammo-relevant part of one `World.run` tick: `handleThrowInput`
followed by `checkCollisionCharacterBottle` (the only two rules that
touch `bottlesAmmo`). The input carries the tick's `Date.now()`, the
throw-key flag and the character hitbox rectangle. -/
def ammoTick (s : AmmoState) (inp : ℤ × Bool × Rect) : AmmoState :=
  checkCollisionCharacterBottle inp.2.2 (handleThrowInput inp.1 inp.2.1 s).1

/-- Folding `ammoTick` over a whole input sequence. -/
def runAmmo (inputs : List (ℤ × Bool × Rect)) (s : AmmoState) : AmmoState :=
  inputs.foldl ammoTick s

/-! ## Character vs. enemies: stomp and side hit
Embeds `World.checkChickenKills` (world.class.js 375-392),
`World.checkCollisions` (294-313), `Character.jump`
(character.class.js 481-485) and the Endboss contact branch. -/

/-- Collision- and health-relevant state of the `Character`
(`width = 100` and `height = 250` come from the class defaults). -/
structure CharState where
  x : ℚ
  y : ℚ
  width : ℚ
  height : ℚ
  speedY : ℚ
  energy : ℤ
  lastHit : ℤ
  deriving Repr, DecidableEq

/-- The character's sprite rectangle. -/
def charRect (c : CharState) : Rect :=
  { x := c.x, y := c.y, width := c.width, height := c.height }

/-- `Character.jump()` as far as physics is concerned: `speedY = 25`. -/
def charJump (c : CharState) : CharState :=
  { c with speedY := 25 }

/-- `hit()` applied to the character's health fields. -/
def charHit (now : ℤ) (c : CharState) : CharState :=
  let h := hit now ⟨c.energy, c.lastHit⟩
  { c with energy := h.energy, lastHit := h.lastHit }

/-- `isHurt()` read on the character's health fields. -/
def charIsHurt (now : ℤ) (c : CharState) : Bool :=
  isHurt now ⟨c.energy, c.lastHit⟩

/-- State of a regular (non-boss) enemy: rectangle plus the
`chickenIsDead` soft-delete flag. -/
structure ChickenState where
  x : ℚ
  y : ℚ
  width : ℚ
  height : ℚ
  chickenIsDead : Bool
  deriving Repr, DecidableEq

/-- A chicken's sprite rectangle. -/
def chickenRect (e : ChickenState) : Rect :=
  { x := e.x, y := e.y, width := e.width, height := e.height }

/-- The stomp predicate shared by `checkChickenKills` and
`checkCollisions`: `character.speedY < 0` and
`character.y + character.height - 20 < enemy.y + 20`. -/
def stompHit (c : CharState) (enemyY : ℚ) : Bool :=
  c.speedY < 0 ∧ c.y + c.height - 20 < enemyY + 20

/-- State of the Endboss. `i` is the alert-sequence counter, `animStopped`
records that the death branch has executed `clearInterval`. -/
structure EndbossState where
  hadFirstContact : Bool
  i : ℕ
  energyEndBoss : ℤ
  lastHitEndBoss : ℤ
  x : ℚ
  speed : ℚ
  animStopped : Bool
  deriving Repr, DecidableEq

/-- `Endboss.isDeadEndBoss()`: `energyEndBoss <= 0`. -/
def isDeadEndBoss (b : EndbossState) : Bool :=
  b.energyEndBoss ≤ 0

/-- An entry of `level.enemies`: either a regular chicken or an Endboss
(`instanceof Endboss` discriminates in the source). -/
inductive Enemy where
  | chicken (e : ChickenState)
  | boss (b : EndbossState)
  deriving Repr, DecidableEq

/-- Width/height of the boss sprite (`width = 250`, `height = 400`). -/
def bossRect (b : EndbossState) : Rect :=
  { x := b.x, y := 55, width := 250, height := 400 }

/-- `World.checkChickenKills`: for each live non-boss enemy the character
overlaps while stomping, the character jumps (`speedY = 25`) and the
enemy is marked `chickenIsDead`; removal from the array is deferred by a
500 ms timer, so the list keeps its entries this tick. The character
state is threaded left to right exactly as the `forEach` mutates it. -/
def chickenKillStep (acc : CharState × List Enemy) (e : Enemy) :
    CharState × List Enemy :=
  match e with
  | .boss b => (acc.1, acc.2 ++ [Enemy.boss b])
  | .chicken k =>
    if k.chickenIsDead then (acc.1, acc.2 ++ [Enemy.chicken k])
    else if collidingChar (charRect acc.1) (chickenRect k) ∧
        stompHit acc.1 k.y then
      (charJump acc.1, acc.2 ++ [Enemy.chicken { k with chickenIsDead := true }])
    else (acc.1, acc.2 ++ [Enemy.chicken k])

/-- `World.checkChickenKills` as the fold of `chickenKillStep` over the
enemies list, starting from the incoming character state. -/
def checkChickenKills (c : CharState) (enemies : List Enemy) :
    CharState × List Enemy :=
  enemies.foldl chickenKillStep (c, [])

/-- `World.checkCollisions`: dead chickens are skipped; on an overlap with
an Endboss, or a non-stomp overlap with a live chicken, the character is
hit unless its 1 s hurt cooldown is active. -/
def checkCollisions (now : ℤ) (c : CharState) (enemies : List Enemy) :
    CharState :=
  enemies.foldl
    (fun c e =>
      match e with
      | .boss b =>
        if collidingChar (charRect c) (bossRect b) then
          if ¬ charIsHurt now c then charHit now c else c
        else c
      | .chicken k =>
        if k.chickenIsDead then c
        else if ¬ collidingChar (charRect c) (chickenRect k) then c
        else if ¬ stompHit c k.y ∧ ¬ charIsHurt now c then charHit now c
        else c)
    c

/-- The enemy-contact part of one `World.run` tick, in source order:
`checkChickenKills` first, then `checkCollisions`. -/
def collisionTick (now : ℤ) (c : CharState) (enemies : List Enemy) :
    CharState × List Enemy :=
  let r := checkChickenKills c enemies
  (checkCollisions now r.1 r.2, r.2)

/-! ## Win check
Embeds `World.checkEndbossDead` (world.class.js 441-448). -/

/-- `World.checkEndbossDead`: the win sequence triggers (sets `gameOver`
and schedules `showWinScreen` after 1500 ms) as soon as some enemy in
`level.enemies` is an Endboss with `isDeadEndBoss()`. The result is
whether the win sequence triggers on this tick. -/
def checkEndbossDead (enemies : List Enemy) : Bool :=
  enemies.any fun e =>
    match e with
    | .boss b => isDeadEndBoss b
    | .chicken _ => false

/-! ## Horizontal movement
Embeds `Character.startMovementLoop` (character.class.js 212-228),
`Character.updateHorizontalMovement` (253-265) and
`MoveableObject.moveRight / moveLeft` (moveable-object.class.js 186-197)
with the character's `speed = 6`. -/

/-- One tick of the character movement loop: `movingRight` requires
`RIGHT` and `x < level_end_x`, `movingLeft` requires `LEFT` and `x > 0`
(both computed before moving), then `moveRight` and `moveLeft` apply
`±6`. -/
def movementTick (endX : ℚ) (right left : Bool) (x : ℚ) : ℚ :=
  let movingRight := right ∧ x < endX
  let movingLeft := left ∧ x > 0
  let x1 := if movingRight then x + 6 else x
  if movingLeft then x1 - 6 else x1

/-- Folding the movement tick over a sequence of input-flag pairs. -/
def runMovement (endX : ℚ) (flags : List (Bool × Bool)) (x : ℚ) : ℚ :=
  flags.foldl (fun x fl => movementTick endX fl.1 fl.2 x) x

/-! ## Gravity
Embeds `MoveableObject.applyGravity / isAboveGround`
(moveable-object.class.js 77-103) for non-projectile entities:
`isAboveGround()` is `y < groundY`, and the landing snap fires when the
updated position is at or below ground with negative updated speed. -/

/-- One gravity tick for a non-projectile entity, acting on the pair
`(y, speedY)` with acceleration `a` and ground level `g`. -/
def gravStep (a g : ℚ) (s : ℚ × ℚ) : ℚ × ℚ :=
  if s.1 < g ∨ s.2 > 0 then
    let y1 := s.1 - s.2
    let v1 := s.2 - a
    if ¬ y1 < g ∧ v1 < 0 then (g, 0) else (y1, v1)
  else s

/-! ## Endboss state machine
Embeds the Endboss variant embedded in `models/world.class.js`
(lines 1073-1136: `hitEndBoss`, `isHurtEndBoss`, `isDeadEndBoss`,
`endBossAnimation`, `animate`) together with
`World.checkEndbossActivation` (400-416). The behaviour phases are
idle (`!hadFirstContact`), alert (`hadFirstContact && i < 15`) and
attack (`hadFirstContact && i >= 15`). -/

/-- `Endboss.hitEndBoss()`: `energyEndBoss -= 10`, clamped at 0; the hit
timestamp is recorded only when the result is non-negative. -/
def hitEndBoss (now : ℤ) (b : EndbossState) : EndbossState :=
  let e := b.energyEndBoss - 10
  if e < 0 then { b with energyEndBoss := 0 }
  else { b with energyEndBoss := e, lastHitEndBoss := now }

/-- `Endboss.isHurtEndBoss()`: hit within the last second. -/
def isHurtEndBoss (now : ℤ) (b : EndbossState) : Bool :=
  now - b.lastHitEndBoss < 1000

/-- The animation frame sets an Endboss tick can render. -/
inductive BossAnim where
  | walking
  | alert
  | attack
  | hurt
  | dead
  deriving Repr, DecidableEq

/-- One callback of the `endBossAnimation` interval: dead has top
priority (and clears the interval), then hurt, then the alert counter,
then attack with leftward movement. Returns the new state and the
animation rendered. -/
def endBossAnimationTick (now : ℤ) (b : EndbossState) :
    EndbossState × Option BossAnim :=
  if b.animStopped then (b, none)
  else if isDeadEndBoss b then ({ b with animStopped := true }, some .dead)
  else if isHurtEndBoss now b then (b, some .hurt)
  else if b.hadFirstContact ∧ b.i < 15 then
    ({ b with i := b.i + 1 }, some .alert)
  else if b.hadFirstContact then
    ({ b with x := b.x - b.speed }, some .attack)
  else (b, none)

/-- One callback of the `animate` interval: the idle walking animation
plays only before first contact and while neither hurt nor dead. -/
def bossWalkTick (now : ℤ) (b : EndbossState) : Option BossAnim :=
  if ¬ b.hadFirstContact ∧ ¬ isHurtEndBoss now b ∧ ¬ isDeadEndBoss b then
    some .walking
  else none

/-- `World.checkEndbossActivation` restricted to one boss: when the
character is within 600 px and the boss has had no first contact, latch
`hadFirstContact` and set the alert counter `i = 5`. -/
def checkEndbossActivation (charX : ℚ) (b : EndbossState) : EndbossState :=
  if |charX - b.x| < 600 ∧ ¬ b.hadFirstContact then
    { b with hadFirstContact := true, i := 5 }
  else b

/-- The events that can reach an Endboss during play. -/
inductive BossEvent where
  | activate (charX : ℚ)
  | hitByBottle (now : ℤ)
  | animTick (now : ℤ)
  | walkTick (now : ℤ)
  deriving Repr

/-- The effect of one event on the boss state, with the animation (if
any) that the event renders. -/
def bossStep (ev : BossEvent) (b : EndbossState) :
    EndbossState × Option BossAnim :=
  match ev with
  | .activate charX => (checkEndbossActivation charX b, none)
  | .hitByBottle now => (hitEndBoss now b, none)
  | .animTick now => endBossAnimationTick now b
  | .walkTick now => (b, bossWalkTick now b)

/-- Folding events over the boss state. -/
def bossRun (evs : List BossEvent) (b : EndbossState) : EndbossState :=
  evs.foldl (fun b ev => (bossStep ev b).1) b

/-- The list of animations rendered along an event sequence. -/
def bossRenders (evs : List BossEvent) (b : EndbossState) :
    List (Option BossAnim) :=
  match evs with
  | [] => []
  | ev :: rest =>
    (bossStep ev b).2 :: bossRenders rest (bossStep ev b).1

/-- The behaviour phase of the boss: 0 = idle, 1 = alert, 2 = attack. -/
def bossPhase (b : EndbossState) : ℕ :=
  if ¬ b.hadFirstContact then 0
  else if b.i < 15 then 1
  else 2

end ElPolloLoco

namespace ElPolloLoco

/-! ## C10: hitting a nearly-dead or dead entity -/

/-- C10: calling `hit()` on a moveable entity whose energy is below 10
clamps the energy to exactly 0 and leaves `lastHit` untouched; hence a hit
on a dead entity (`energy = 0`) keeps it dead, does not refresh the hurt
timestamp, and `isHurt` is unchanged for every observation time. -/
theorem hit_low_energy_clamps (now : ℤ) (s : HealthState)
    (h : s.energy < 10) :
    (hit now s).energy = 0 ∧ (hit now s).lastHit = s.lastHit ∧
      (isDead s = true → isDead (hit now s) = true) ∧
      (∀ t : ℤ, isHurt t (hit now s) = isHurt t s) := by
  have he : s.energy - 10 < 0 := by omega
  refine ⟨?_, ?_, ?_, ?_⟩
  · simp [hit, he]
  · simp [hit, he]
  · intro _
    simp [hit, isDead, he]
  · intro t
    simp [hit, isHurt, he]

/-- Witness for C10 at energy 0. -/
theorem hit_low_energy_clamps_witness :
    (0 : ℤ) < 10 ∧
      (hit 5000 ⟨0, 42⟩).energy = 0 ∧ (hit 5000 ⟨0, 42⟩).lastHit = 42 ∧
      (isDead ⟨0, 42⟩ = true → isDead (hit 5000 ⟨0, 42⟩) = true) ∧
      (∀ t : ℤ, isHurt t (hit 5000 ⟨0, 42⟩) = isHurt t ⟨0, 42⟩) := by
  refine ⟨by decide, hit_low_energy_clamps 5000 ⟨0, 42⟩ (by decide)⟩

/-! ## Semantics of the forEach-with-splice passes -/

/-- Once the index is at or past the current length, the remaining
`forEach` visits change nothing. -/
theorem forEachSplice_stopped (p : α → Bool) (f : σ → σ) :
    ∀ (fuel k : ℕ) (cur : List α) (st : σ), cur.length ≤ k →
      forEachSplice p f fuel k cur st = (cur, st) := by
  intro fuel
  induction fuel with
  | zero => intro k cur st _; rfl
  | succ fuel ih =>
    intro k cur st h
    have hnone : cur.get? k = none := List.get?_eq_none.mpr h
    unfold forEachSplice
    rw [hnone]
    exact ih (k + 1) cur st (le_trans h (Nat.le_succ k))

/-- Reading the element just past a known prefix. -/
theorem get?_append_cons (done : List α) (a : α) (rest : List α) :
    (done ++ a :: rest).get? done.length = some a := by
  induction done with
  | nil => rfl
  | cons d ds ih => simpa using ih

/-- Splicing out the element just past a known prefix. -/
theorem eraseIdx_append_cons (done : List α) (a : α) (rest : List α) :
    (done ++ a :: rest).eraseIdx done.length = done ++ rest := by
  induction done with
  | nil => rfl
  | cons d ds ih =>
    show d :: (ds ++ a :: rest).eraseIdx ds.length = d :: (ds ++ rest)
    rw [ih]

/-- Equation: a matching head with an empty tail is removed. -/
theorem splicePass_single_true (p : α → Bool) (f : σ → σ) (a : α) (st : σ)
    (hp : p a = true) :
    splicePass p f [a] st = ([], f st) := by
  unfold splicePass
  rw [if_pos hp]

/-- Equation: a matching head is removed and the next element skipped. -/
theorem splicePass_cons_true (p : α → Bool) (f : σ → σ) (a b : α)
    (rest2 : List α) (st : σ) (hp : p a = true) :
    splicePass p f (a :: b :: rest2) st =
      (b :: (splicePass p f rest2 (f st)).1,
        (splicePass p f rest2 (f st)).2) := by
  conv_lhs => unfold splicePass
  rw [if_pos hp]

/-- Equation: a non-matching head is kept and the pass continues. -/
theorem splicePass_cons_false (p : α → Bool) (f : σ → σ) (a : α)
    (rest : List α) (st : σ) (hp : p a = false) :
    splicePass p f (a :: rest) st =
      (a :: (splicePass p f rest st).1, (splicePass p f rest st).2) := by
  conv_lhs => unfold splicePass
  rw [if_neg (by simp [hp])]

/-- The operational `forEach`-with-splice pass equals the structural
description `splicePass`, relative to an already-visited prefix. -/
theorem forEachSplice_eq_aux (p : α → Bool) (f : σ → σ) :
    ∀ (n : ℕ) (todo done : List α) (st : σ) (fuel : ℕ),
      todo.length ≤ n → todo.length ≤ fuel →
      forEachSplice p f fuel done.length (done ++ todo) st =
        (done ++ (splicePass p f todo st).1, (splicePass p f todo st).2) := by
  intro n
  induction n with
  | zero =>
    intro todo done st fuel hn _
    have h0 : todo = [] := List.length_eq_zero.mp (Nat.le_zero.mp hn)
    subst h0
    rw [forEachSplice_stopped p f fuel done.length (done ++ []) st (by simp)]
    simp [splicePass]
  | succ n ih =>
    intro todo done st fuel hn hf
    cases todo with
    | nil =>
      rw [forEachSplice_stopped p f fuel done.length (done ++ []) st (by simp)]
      simp [splicePass]
    | cons a rest =>
      cases fuel with
      | zero => exact absurd hf (by simp)
      | succ fuel =>
        unfold forEachSplice
        rw [get?_append_cons]
        dsimp only
        by_cases hp : p a
        · rw [if_pos hp, eraseIdx_append_cons]
          cases rest with
          | nil =>
            rw [forEachSplice_stopped p f fuel (done.length + 1) (done ++ [])
              (f st) (by simp), splicePass_single_true p f a st hp]
          | cons b rest2 =>
            have e1 : done ++ b :: rest2 = (done ++ [b]) ++ rest2 := by simp
            have e2 : done.length + 1 = (done ++ [b]).length := by simp
            rw [e1, e2, ih rest2 (done ++ [b]) (f st) fuel
              (by simp only [List.length_cons] at hn; omega)
              (by simp only [List.length_cons] at hf; omega),
              splicePass_cons_true p f a b rest2 st hp]
            simp
        · rw [if_neg hp]
          have e1 : done ++ a :: rest = (done ++ [a]) ++ rest := by simp
          have e2 : done.length + 1 = (done ++ [a]).length := by simp
          rw [e1, e2, ih rest (done ++ [a]) st fuel
            (by simp only [List.length_cons] at hn; omega)
            (by simp only [List.length_cons] at hf; omega),
            splicePass_cons_false p f a rest st (by simpa using hp)]
          simp

/-- The full pass starting at index 0 with the original length as visit
count equals `splicePass`. -/
theorem forEachSplice_eq_splicePass (p : α → Bool) (f : σ → σ)
    (l : List α) (st : σ) :
    forEachSplice p f l.length 0 l st = splicePass p f l st := by
  have h := forEachSplice_eq_aux p f l.length l [] st l.length le_rfl le_rfl
  simpa using h

/-- A splice pass never reorders or invents elements: the survivors form
a sublist of the original collection. -/
theorem splicePass_sublist_aux (p : α → Bool) (f : σ → σ) :
    ∀ (n : ℕ) (l : List α) (st : σ), l.length ≤ n →
      (splicePass p f l st).1.Sublist l := by
  intro n
  induction n with
  | zero =>
    intro l st hn
    have h0 : l = [] := List.length_eq_zero.mp (Nat.le_zero.mp hn)
    subst h0
    exact List.Sublist.refl _
  | succ n ih =>
    intro l st hn
    cases l with
    | nil => exact List.Sublist.refl _
    | cons a rest =>
      by_cases hp : p a
      · cases rest with
        | nil =>
          rw [splicePass_single_true p f a st hp]
          exact List.nil_sublist _
        | cons b rest2 =>
          have h2 : rest2.length ≤ n := by
            simp only [List.length_cons] at hn; omega
          have hs := ih rest2 (f st) h2
          rw [splicePass_cons_true p f a b rest2 st hp]
          exact List.Sublist.cons a (List.Sublist.cons₂ b hs)
      · have h2 : rest.length ≤ n := by
          simp only [List.length_cons] at hn; omega
        have hs := ih rest st h2
        rw [splicePass_cons_false p f a rest st (by simpa using hp)]
        exact List.Sublist.cons₂ a hs

/-- The state after a splice pass is `f` iterated once per removal, and
the removal count is the length drop. -/
theorem splicePass_count_aux (p : α → Bool) (f : σ → σ) :
    ∀ (n : ℕ) (l : List α) (st : σ), l.length ≤ n →
      ∃ m : ℕ, (splicePass p f l st).2 = f^[m] st ∧
        (splicePass p f l st).1.length + m = l.length := by
  intro n
  induction n with
  | zero =>
    intro l st hn
    have h0 : l = [] := List.length_eq_zero.mp (Nat.le_zero.mp hn)
    subst h0
    exact ⟨0, rfl, rfl⟩
  | succ n ih =>
    intro l st hn
    cases l with
    | nil => exact ⟨0, rfl, rfl⟩
    | cons a rest =>
      by_cases hp : p a
      · cases rest with
        | nil =>
          refine ⟨1, ?_, ?_⟩ <;>
            rw [splicePass_single_true p f a st hp] <;> rfl
        | cons b rest2 =>
          have h2 : rest2.length ≤ n := by
            simp only [List.length_cons] at hn; omega
          obtain ⟨m, hst, hlen⟩ := ih rest2 (f st) h2
          refine ⟨m + 1, ?_, ?_⟩
          · rw [splicePass_cons_true p f a b rest2 st hp]
            dsimp only
            rw [hst, Function.iterate_succ_apply]
          · rw [splicePass_cons_true p f a b rest2 st hp]
            simp only [List.length_cons]
            omega
      · have h2 : rest.length ≤ n := by
          simp only [List.length_cons] at hn; omega
        obtain ⟨m, hst, hlen⟩ := ih rest st h2
        refine ⟨m, ?_, ?_⟩
        · rw [splicePass_cons_false p f a rest st (by simpa using hp)]
          exact hst
        · rw [splicePass_cons_false p f a rest st (by simpa using hp)]
          simp only [List.length_cons]
          omega

/-- Elements the predicate rejects are never removed by a splice pass. -/
theorem splicePass_filter_aux (p : α → Bool) (f : σ → σ) :
    ∀ (n : ℕ) (l : List α) (st : σ), l.length ≤ n →
      (splicePass p f l st).1.filter (fun a => ! p a) =
        l.filter (fun a => ! p a) := by
  intro n
  induction n with
  | zero =>
    intro l st hn
    have h0 : l = [] := List.length_eq_zero.mp (Nat.le_zero.mp hn)
    subst h0
    rfl
  | succ n ih =>
    intro l st hn
    cases l with
    | nil => rfl
    | cons a rest =>
      by_cases hp : p a
      · cases rest with
        | nil =>
          rw [splicePass_single_true p f a st hp]
          simp [List.filter, hp]
        | cons b rest2 =>
          have h2 : rest2.length ≤ n := by
            simp only [List.length_cons] at hn; omega
          have hs := ih rest2 (f st) h2
          rw [splicePass_cons_true p f a b rest2 st hp]
          simp [List.filter, hp, hs]
      · have h2 : rest.length ≤ n := by
          simp only [List.length_cons] at hn; omega
        have hs := ih rest st h2
        rw [splicePass_cons_false p f a rest st (by simpa using hp)]
        simp [List.filter, hp, hs]

/-! ## C5: throw-input gating -/

/-- C5: a projectile is spawned in a tick exactly when the throw key is
pressed this tick and was not pressed the previous tick, at least
`throwCooldownMs` have elapsed since the last throw, and
`bottlesAmmo > 0`; a tick following a pressed tick never spawns while the
key stays down; no projectile is spawned with empty ammo; a spawning tick
pushes exactly one projectile. -/
theorem handleThrowInput_spec (now : ℤ) (pressed : Bool) (s : AmmoState) :
    ((handleThrowInput now pressed s).2 = true ↔
      (pressed = true ∧ s.throwPressedPrev = false ∧
        now - s.lastThrowAt ≥ throwCooldownMs ∧ 0 < s.bottlesAmmo)) ∧
    (∀ now2 : ℤ,
      (handleThrowInput now2 true (handleThrowInput now true s).1).2 = false) ∧
    (s.bottlesAmmo ≤ 0 → (handleThrowInput now pressed s).2 = false) ∧
    ((handleThrowInput now pressed s).2 = true →
      (handleThrowInput now pressed s).1.throwableObjects
        = s.throwableObjects + 1) := by
  refine ⟨?_, ?_, ?_, ?_⟩
  · unfold handleThrowInput
    dsimp only
    split
    next h =>
      constructor
      · intro _
        exact ⟨h.1.1, by simpa using h.1.2, h.2.1, h.2.2⟩
      · intro _
        rfl
    next h =>
      simp only [Bool.false_eq_true, false_iff]
      rintro ⟨hp, hprev, hcd, hammo⟩
      exact h ⟨⟨hp, by simp [hprev]⟩, hcd, hammo⟩
  · intro now2
    obtain ⟨s1, hs1⟩ : ∃ s1, (handleThrowInput now true s).1 = s1 := ⟨_, rfl⟩
    have hprev : s1.throwPressedPrev = true := by
      rw [← hs1]
      unfold handleThrowInput
      dsimp only
      split <;> rfl
    rw [hs1]
    unfold handleThrowInput
    dsimp only
    rw [if_neg (by rintro ⟨⟨_, hc⟩, _⟩; exact hc hprev)]
  · intro hammo
    unfold handleThrowInput
    dsimp only
    split
    next h => exact absurd h.2.2 (not_lt.mpr hammo)
    next h => rfl
  · intro hsp
    unfold handleThrowInput at hsp ⊢
    dsimp only at hsp ⊢
    split at hsp
    next h => rw [if_pos h]
    next h => simp at hsp

/-- Witness for C5 at a concrete state. -/
theorem handleThrowInput_spec_witness :
    ((handleThrowInput 1000 true (initAmmo [⟨500, 360, 80, 80⟩])).2 = true ↔
      (true = true ∧ (initAmmo [⟨500, 360, 80, 80⟩]).throwPressedPrev = false ∧
        1000 - (initAmmo [⟨500, 360, 80, 80⟩]).lastThrowAt ≥ throwCooldownMs ∧
        0 < (initAmmo [⟨500, 360, 80, 80⟩]).bottlesAmmo)) ∧
    (∀ now2 : ℤ,
      (handleThrowInput now2 true
        (handleThrowInput 1000 true (initAmmo [⟨500, 360, 80, 80⟩])).1).2
          = false) ∧
    ((initAmmo [⟨500, 360, 80, 80⟩]).bottlesAmmo ≤ 0 →
      (handleThrowInput 1000 true (initAmmo [⟨500, 360, 80, 80⟩])).2 = false) ∧
    ((handleThrowInput 1000 true (initAmmo [⟨500, 360, 80, 80⟩])).2 = true →
      (handleThrowInput 1000 true (initAmmo [⟨500, 360, 80, 80⟩])).1.throwableObjects
        = (initAmmo [⟨500, 360, 80, 80⟩]).throwableObjects + 1) :=
  handleThrowInput_spec 1000 true (initAmmo [⟨500, 360, 80, 80⟩])

/-! ## C1: the win check -/

/-- C1 counterexample: with one dead boss and one boss at full energy
(still alive, nothing ever removed from the enemies collection), the win
sequence triggers — contradicting the claim that the win event requires
every Endboss dead and removed. -/
theorem checkEndbossDead_fires_with_live_boss :
    (0 : ℤ) <
      (⟨false, 0, 100, 0, 3000, 5, false⟩ : EndbossState).energyEndBoss ∧
    checkEndbossDead
      [Enemy.boss ⟨true, 15, 0, 0, 2500, 5, false⟩,
       Enemy.boss ⟨false, 0, 100, 0, 3000, 5, false⟩] = true := by
  constructor
  · decide
  · simp [checkEndbossDead, isDeadEndBoss]

/-- C1 amended: the win sequence triggers on a tick if and only if some
Endboss currently in the enemies collection has `energyEndBoss <= 0`;
bosses are never removed from the collection, and only the win screen
itself (not the trigger) is delayed. -/
theorem checkEndbossDead_iff (enemies : List Enemy) :
    checkEndbossDead enemies = true ↔
      ∃ b : EndbossState, Enemy.boss b ∈ enemies ∧ b.energyEndBoss ≤ 0 := by
  simp only [checkEndbossDead, List.any_eq_true]
  constructor
  · rintro ⟨e, he, hb⟩
    match e with
    | .boss b =>
      refine ⟨b, he, ?_⟩
      simpa [isDeadEndBoss] using hb
    | .chicken k => simp at hb
  · rintro ⟨b, hb, he⟩
    exact ⟨.boss b, hb, by simpa [isDeadEndBoss] using he⟩

/-! ## C8: horizontal position bounds -/

/-- C8 counterexample: from `x = 2199` inside `[0, 2200]`, one tick with
only the right key held moves the character to `x = 2205`, outside
`[0, levelEndX]` — the movement guard checks the bound before moving but
does not clamp. -/
theorem movementTick_escapes_interval :
    (0 : ℚ) ≤ 2199 ∧ (2199 : ℚ) ≤ 2200 ∧
    movementTick 2200 true false 2199 = 2205 ∧
    ¬ movementTick 2200 true false 2199 ≤ 2200 := by
  norm_num [movementTick]

/-- C8 amended: under the per-tick guards (`moveRight` only while
`x < levelEndX`, `moveLeft` only while `x > 0`, step size `speed = 6`),
the character's `x` stays in the open interval
`(-6, levelEndX + 6)` for every input sequence. -/
theorem runMovement_bounds (endX : ℚ) (flags : List (Bool × Bool)) (x : ℚ)
    (h1 : -6 < x) (h2 : x < endX + 6) :
    -6 < runMovement endX flags x ∧ runMovement endX flags x < endX + 6 := by
  induction flags generalizing x with
  | nil => exact ⟨h1, h2⟩
  | cons fl rest ih =>
    have hstep : -6 < movementTick endX fl.1 fl.2 x ∧
        movementTick endX fl.1 fl.2 x < endX + 6 := by
      unfold movementTick
      dsimp only
      split
      next hl =>
        split
        next hr => constructor <;> linarith [hl.2, hr.2]
        next hr => constructor <;> linarith [hl.2]
      next hl =>
        split
        next hr => constructor <;> linarith [hr.2]
        next hr => exact ⟨h1, h2⟩
    exact ih _ hstep.1 hstep.2

/-- Witness for C8 amended at the counterexample tick. -/
theorem runMovement_bounds_witness :
    (-6 : ℚ) < 2199 ∧ (2199 : ℚ) < 2200 + 6 ∧
      (-6 < runMovement 2200 [(true, false)] 2199 ∧
        runMovement 2200 [(true, false)] 2199 < 2200 + 6) := by
  refine ⟨by norm_num, by norm_num, ?_⟩
  exact runMovement_bounds 2200 [(true, false)] 2199 (by norm_num) (by norm_num)

/-! ## C7: removal inside the iterating rules -/

/-- Iterating a function preserves any predicate it preserves. -/
theorem iterate_preserves (f : σ → σ) (P : σ → Prop)
    (hf : ∀ x, P x → P (f x)) :
    ∀ (m : ℕ) (x : σ), P x → P (f^[m] x) := by
  intro m
  induction m with
  | zero => intro x hx; exact hx
  | succ m ih =>
    intro x hx
    exact ih (f x) (hf x hx)

/-- Iterating the successor adds the iteration count. -/
theorem iterate_add_one (m : ℕ) (n : ℤ) :
    (fun k : ℤ => k + 1)^[m] n = n + m := by
  induction m generalizing n with
  | zero => simp
  | succ m ih =>
    have h1 : (fun k : ℤ => k + 1)^[m + 1] n
        = (fun k : ℤ => k + 1)^[m] (n + 1) := rfl
    rw [h1, ih]
    push_cast
    ring

/-- One step of `checkChickenKills` appends exactly one enemy. -/
theorem chickenKillStep_length (acc : CharState × List Enemy) (e : Enemy) :
    (chickenKillStep acc e).2.length = acc.2.length + 1 := by
  cases e with
  | boss b => simp [chickenKillStep]
  | chicken k =>
    unfold chickenKillStep
    dsimp only
    split_ifs <;> simp

/-- `checkChickenKills` keeps the enemies list at its length: removal of
a stomped chicken is deferred to a 500 ms timer, not performed inside
the iterating rule. -/
theorem checkChickenKills_length (enemies : List Enemy) (c : CharState) :
    (checkChickenKills c enemies).2.length = enemies.length := by
  suffices h : ∀ (acc : CharState × List Enemy),
      (enemies.foldl chickenKillStep acc).2.length
        = acc.2.length + enemies.length by
    have := h (c, [])
    simpa [checkChickenKills] using this
  induction enemies with
  | nil => intro acc; simp
  | cons e rest ih =>
    intro acc
    rw [List.foldl_cons, ih]
    rw [chickenKillStep_length acc e]
    simp only [List.length_cons]
    omega

/-- C7 counterexample: two adjacent coins both overlap the character's
hitbox, yet one tick removes and counts only the first — the
splice-during-`forEach` skips the coin that shifted into the removed
slot, so removal is not filtering. -/
theorem coin_removal_skips_adjacent :
    collidingChar ⟨0, 0, 100, 250⟩ ⟨10, 100, 80, 80⟩ = true ∧
    collidingChar ⟨0, 0, 100, 250⟩ ⟨20, 100, 80, 80⟩ = true ∧
    checkCollisionCharacterCoin ⟨0, 0, 100, 250⟩
        [⟨10, 100, 80, 80⟩, ⟨20, 100, 80, 80⟩] 0
      = ([⟨20, 100, 80, 80⟩], 1) := by
  have h1 : collidingChar ⟨0, 0, 100, 250⟩ ⟨10, 100, 80, 80⟩ = true := by
    simp only [collidingChar, decide_eq_true_eq]
    norm_num
  have h2 : collidingChar ⟨0, 0, 100, 250⟩ ⟨20, 100, 80, 80⟩ = true := by
    simp only [collidingChar, decide_eq_true_eq]
    norm_num
  refine ⟨h1, h2, ?_⟩
  unfold checkCollisionCharacterCoin
  rw [forEachSplice_eq_splicePass,
    splicePass_cons_true (fun c => collidingChar ⟨0, 0, 100, 250⟩ c)
      (fun n : ℤ => n + 1) ⟨10, 100, 80, 80⟩ ⟨20, 100, 80, 80⟩ [] 0 h1]
  simp [splicePass]

/-- C7 amended: per-tick removal follows the splice-during-`forEach`
semantics: survivors are a sublist of the collection, the counter grows
by exactly the number of removals, a non-overlapping coin is never
removed, and when two overlapping coins are adjacent the second is
skipped that tick; chicken kill removal is deferred via a timer, leaving
the enemies list intact within the tick. -/
theorem removal_splice_semantics (char : Rect) (coins : List Rect) (n : ℤ)
    (c : CharState) (enemies : List Enemy) :
    (checkCollisionCharacterCoin char coins n).1.Sublist coins ∧
    (checkCollisionCharacterCoin char coins n).2 =
      n + ((coins.length : ℤ) -
        ((checkCollisionCharacterCoin char coins n).1.length : ℤ)) ∧
    (checkCollisionCharacterCoin char coins n).1.filter
        (fun x => ! collidingChar char x) =
      coins.filter (fun x => ! collidingChar char x) ∧
    (checkChickenKills c enemies).2.length = enemies.length := by
  unfold checkCollisionCharacterCoin
  rw [forEachSplice_eq_splicePass]
  obtain ⟨m, hst, hlen⟩ := splicePass_count_aux
    (fun c => collidingChar char c) (fun n : ℤ => n + 1)
    coins.length coins n le_rfl
  refine ⟨?_, ?_, ?_, ?_⟩
  · exact splicePass_sublist_aux _ _ coins.length coins n le_rfl
  · rw [hst, iterate_add_one]
    omega
  · exact splicePass_filter_aux _ _ coins.length coins n le_rfl
  · exact checkChickenKills_length enemies c

/-! ## C6: the coin-pickup hitbox and scenario -/

/-- C6 counterexample: a coin that overlaps the character's plain sprite
AABB but not the inset hitbox is not collected — coin pickup does use the
inset `Character` branch of `isColliding`, not a plain AABB test. -/
theorem coinPickup_requires_inset :
    collidingPlain ⟨0, 0, 100, 250⟩ ⟨90, 200, 80, 80⟩ = true ∧
    collidingChar ⟨0, 0, 100, 250⟩ ⟨90, 200, 80, 80⟩ = false ∧
    checkCollisionCharacterCoin ⟨0, 0, 100, 250⟩ [⟨90, 200, 80, 80⟩] 0 =
      ([⟨90, 200, 80, 80⟩], 0) := by
  have h1 : collidingChar ⟨0, 0, 100, 250⟩ ⟨90, 200, 80, 80⟩ = false := by
    simp only [collidingChar, decide_eq_false_iff_not]
    intro h
    exact absurd h.1 (by norm_num)
  refine ⟨?_, h1, ?_⟩
  · simp only [collidingPlain, decide_eq_true_eq]
    norm_num
  · unfold checkCollisionCharacterCoin
    rw [forEachSplice_eq_splicePass,
      splicePass_cons_false (fun c => collidingChar ⟨0, 0, 100, 250⟩ c)
        (fun n : ℤ => n + 1) ⟨90, 200, 80, 80⟩ [] 0 h1]
    simp [splicePass]

/-- C6 amended: coin pickup uses the character's inset hitbox; a coin the
inset hitbox overlaps is, in one tick with `coinsCollected = 0` and
`maxCoinsInLevel = 5`, removed from `level.coins`, counted
(`coinsCollected = 1`), and shown as 20 percent on the coin HUD bar. -/
theorem coinPickup_inset_scenario (char coin : Rect)
    (h : collidingChar char coin = true) :
    checkCollisionCharacterCoin char [coin] 0 = ([], 1) ∧
    coinBarPercentage 1 5 = 20 := by
  constructor
  · unfold checkCollisionCharacterCoin
    rw [forEachSplice_eq_splicePass,
      splicePass_single_true (fun c => collidingChar char c)
        (fun n : ℤ => n + 1) coin 0 h]
    norm_num
  · norm_num [coinBarPercentage]

/-- Witness for C6 amended with an inset-overlapping coin. -/
theorem coinPickup_inset_scenario_witness :
    collidingChar ⟨0, 0, 100, 250⟩ ⟨10, 100, 80, 80⟩ = true ∧
    (checkCollisionCharacterCoin ⟨0, 0, 100, 250⟩ [⟨10, 100, 80, 80⟩] 0
        = ([], 1) ∧
      coinBarPercentage 1 5 = 20) := by
  have h1 : collidingChar ⟨0, 0, 100, 250⟩ ⟨10, 100, 80, 80⟩ = true := by
    simp only [collidingChar, decide_eq_true_eq]
    norm_num
  exact ⟨h1, coinPickup_inset_scenario ⟨0, 0, 100, 250⟩ ⟨10, 100, 80, 80⟩ h1⟩

/-! ## C3: the ammo invariant -/

/-- `handleThrowInput` preserves the ammo invariant. -/
theorem handleThrowInput_inv (now : ℤ) (pressed : Bool) (s : AmmoState)
    (h : ammoInv s) : ammoInv (handleThrowInput now pressed s).1 := by
  obtain ⟨h1, h2, h3⟩ := h
  unfold handleThrowInput
  dsimp only
  split
  next hc => exact ⟨by dsimp only; omega, by dsimp only; omega, h3⟩
  next => exact ⟨h1, h2, h3⟩

/-- `checkCollisionCharacterBottle` preserves the ammo invariant. -/
theorem checkBottle_inv (char : Rect) (s : AmmoState)
    (h : ammoInv s) : ammoInv (checkCollisionCharacterBottle char s) := by
  obtain ⟨h1, h2, h3⟩ := h
  by_cases hmax : s.maxBottlesInLevel > 0
  · unfold checkCollisionCharacterBottle
    dsimp only
    rw [forEachSplice_eq_splicePass]
    obtain ⟨m, hst, hlen⟩ := splicePass_count_aux
      (fun b => collidingChar char b)
      (fun a : ℤ =>
        if s.maxBottlesInLevel > 0 then min (a + 1) s.maxBottlesInLevel
        else a + 1)
      s.bottles.length s.bottles s.bottlesAmmo le_rfl
    have hsub := splicePass_sublist_aux
      (fun b => collidingChar char b)
      (fun a : ℤ =>
        if s.maxBottlesInLevel > 0 then min (a + 1) s.maxBottlesInLevel
        else a + 1)
      s.bottles.length s.bottles s.bottlesAmmo le_rfl
    have hiter := iterate_preserves
      (fun a : ℤ =>
        if s.maxBottlesInLevel > 0 then min (a + 1) s.maxBottlesInLevel
        else a + 1)
      (fun a => 0 ≤ a ∧ a ≤ s.maxBottlesInLevel)
      (by
        intro x hx
        dsimp only
        rw [if_pos hmax]
        exact ⟨le_min (by omega) (by omega), min_le_right _ _⟩)
      m s.bottlesAmmo ⟨h1, h2⟩
    rw [hst] at *
    refine ⟨hiter.1, hiter.2, ?_⟩
    have hle := hsub.length_le
    have hcast : ((splicePass (fun b => collidingChar char b)
      (fun a : ℤ =>
        if s.maxBottlesInLevel > 0 then min (a + 1) s.maxBottlesInLevel
        else a + 1)
      s.bottles s.bottlesAmmo).1.length : ℤ) ≤ (s.bottles.length : ℤ) := by
      exact_mod_cast hle
    dsimp only
    omega
  · have hb0 : s.bottles = [] := by
      have hlen0 : s.bottles.length = 0 := by omega
      exact List.length_eq_zero.mp hlen0
    unfold checkCollisionCharacterBottle
    dsimp only
    rw [hb0]
    exact ⟨h1, h2, by simpa [hb0] using h3⟩

/-- One whole tick preserves the ammo invariant. -/
theorem ammoTick_inv (s : AmmoState) (inp : ℤ × Bool × Rect)
    (h : ammoInv s) : ammoInv (ammoTick s inp) :=
  checkBottle_inv inp.2.2 _ (handleThrowInput_inv inp.1 inp.2.1 s h)

/-- Any run from an invariant state stays invariant. -/
theorem runAmmo_inv (inputs : List (ℤ × Bool × Rect)) :
    ∀ (s : AmmoState), ammoInv s → ammoInv (runAmmo inputs s) := by
  induction inputs with
  | nil => intro s h; exact h
  | cons inp rest ih =>
    intro s h
    exact ih _ (ammoTick_inv s inp h)

/-- C3: over every sequence of ticks from the freshly constructed world,
`0 <= bottlesAmmo <= maxBottlesInLevel`; a successful throw decreases the
ammo by exactly 1, and picking up a (sole remaining) bottle increases it
by exactly 1, clamped at the level maximum. -/
theorem bottlesAmmo_bounds (bs0 : List Rect)
    (inputs : List (ℤ × Bool × Rect)) :
    (0 ≤ (runAmmo inputs (initAmmo bs0)).bottlesAmmo ∧
      (runAmmo inputs (initAmmo bs0)).bottlesAmmo ≤
        (runAmmo inputs (initAmmo bs0)).maxBottlesInLevel) ∧
    (∀ (now : ℤ) (pressed : Bool) (s : AmmoState),
      (handleThrowInput now pressed s).2 = true →
        (handleThrowInput now pressed s).1.bottlesAmmo
          = s.bottlesAmmo - 1) ∧
    (∀ (char b : Rect) (s : AmmoState), s.bottles = [b] →
      collidingChar char b = true →
        (checkCollisionCharacterBottle char s).bottlesAmmo =
          if s.maxBottlesInLevel > 0 then
            min (s.bottlesAmmo + 1) s.maxBottlesInLevel
          else s.bottlesAmmo + 1) := by
  refine ⟨?_, ?_, ?_⟩
  · have hinit : ammoInv (initAmmo bs0) := by
      refine ⟨le_rfl, ?_, ?_⟩ <;> simp [initAmmo]
    have := runAmmo_inv inputs (initAmmo bs0) hinit
    exact ⟨this.1, this.2.1⟩
  · intro now pressed s hsp
    unfold handleThrowInput at hsp ⊢
    dsimp only at hsp ⊢
    split at hsp
    next hc => rw [if_pos hc]
    next => simp at hsp
  · intro char b s hb hcol
    unfold checkCollisionCharacterBottle
    dsimp only
    rw [hb, forEachSplice_eq_splicePass,
      splicePass_single_true (fun x => collidingChar char x) _ b
        s.bottlesAmmo hcol]

/-- Witness for C3 at a concrete run and concrete throw/pickup states. -/
theorem bottlesAmmo_bounds_witness :
    ((0 ≤ (runAmmo [(1000, true, ⟨0, 0, 100, 250⟩)]
        (initAmmo [⟨10, 100, 80, 80⟩])).bottlesAmmo ∧
      (runAmmo [(1000, true, ⟨0, 0, 100, 250⟩)]
        (initAmmo [⟨10, 100, 80, 80⟩])).bottlesAmmo ≤
        (runAmmo [(1000, true, ⟨0, 0, 100, 250⟩)]
          (initAmmo [⟨10, 100, 80, 80⟩])).maxBottlesInLevel) ∧
    (∀ (now : ℤ) (pressed : Bool) (s : AmmoState),
      (handleThrowInput now pressed s).2 = true →
        (handleThrowInput now pressed s).1.bottlesAmmo
          = s.bottlesAmmo - 1) ∧
    (∀ (char b : Rect) (s : AmmoState), s.bottles = [b] →
      collidingChar char b = true →
        (checkCollisionCharacterBottle char s).bottlesAmmo =
          if s.maxBottlesInLevel > 0 then
            min (s.bottlesAmmo + 1) s.maxBottlesInLevel
          else s.bottlesAmmo + 1)) :=
  bottlesAmmo_bounds [⟨10, 100, 80, 80⟩] [(1000, true, ⟨0, 0, 100, 250⟩)]

/-! ## C2: stomp kills, side hit damages -/

/-- C2: for a tick in which the character overlaps a live non-boss enemy
(per the inset hitbox): if the overlap is a stomp (`speedY < 0` and
`y + height - 20 < enemy.y + 20`) the enemy is marked dead and the
character's energy is untouched; otherwise the enemy stays alive and,
when the 1 s hurt cooldown is inactive, the character's energy drops by
10 (clamped at 0, strictly smaller while the character is alive); with
the cooldown active the energy is unchanged. -/
theorem stomp_vs_side_hit (now : ℤ) (c : CharState) (k : ChickenState)
    (halive : k.chickenIsDead = false)
    (hcol : collidingChar (charRect c) (chickenRect k) = true) :
    (stompHit c k.y = true →
      (collisionTick now c [Enemy.chicken k]).2
          = [Enemy.chicken { k with chickenIsDead := true }] ∧
        (collisionTick now c [Enemy.chicken k]).1.energy = c.energy) ∧
    (stompHit c k.y = false →
      (collisionTick now c [Enemy.chicken k]).2 = [Enemy.chicken k] ∧
      (charIsHurt now c = false →
        (collisionTick now c [Enemy.chicken k]).1.energy
            = max 0 (c.energy - 10) ∧
        (0 < c.energy →
          (collisionTick now c [Enemy.chicken k]).1.energy < c.energy)) ∧
      (charIsHurt now c = true →
        (collisionTick now c [Enemy.chicken k]).1.energy = c.energy)) := by
  constructor
  · intro hs
    have hkill : checkChickenKills c [Enemy.chicken k]
        = (charJump c, [Enemy.chicken { k with chickenIsDead := true }]) := by
      unfold checkChickenKills
      simp [chickenKillStep, halive, hcol, hs]
    have hcoll : checkCollisions now (charJump c)
        [Enemy.chicken { k with chickenIsDead := true }] = charJump c := by
      unfold checkCollisions
      simp
    unfold collisionTick
    rw [hkill]
    dsimp only
    rw [hcoll]
    exact ⟨rfl, rfl⟩
  · intro hs
    have hkill : checkChickenKills c [Enemy.chicken k]
        = (c, [Enemy.chicken k]) := by
      unfold checkChickenKills
      simp [chickenKillStep, halive, hs]
    unfold collisionTick
    rw [hkill]
    dsimp only
    refine ⟨rfl, ?_, ?_⟩
    · intro hhurt
      have hcoll : checkCollisions now c [Enemy.chicken k]
          = charHit now c := by
        unfold checkCollisions
        simp [halive, hcol, hs, hhurt]
      rw [hcoll]
      constructor
      · unfold charHit hit
        dsimp only
        split
        next h => dsimp only; omega
        next h => dsimp only; omega
      · intro hpos
        unfold charHit hit
        dsimp only
        split
        next h => dsimp only; omega
        next h => dsimp only; omega
    · intro hhurt
      have hcoll : checkCollisions now c [Enemy.chicken k] = c := by
        unfold checkCollisions
        simp [halive, hcol, hs, hhurt]
      rw [hcoll]

/-- Witness for C2 at a concrete stomping configuration. -/
theorem stomp_vs_side_hit_witness :
    (⟨100, 360, 70, 55, false⟩ : ChickenState).chickenIsDead = false ∧
    collidingChar (charRect ⟨100, 140, 100, 250, -1, 100, 0⟩)
      (chickenRect ⟨100, 360, 70, 55, false⟩) = true ∧
    ((stompHit ⟨100, 140, 100, 250, -1, 100, 0⟩
        (⟨100, 360, 70, 55, false⟩ : ChickenState).y = true →
      (collisionTick 5000 ⟨100, 140, 100, 250, -1, 100, 0⟩
          [Enemy.chicken ⟨100, 360, 70, 55, false⟩]).2
          = [Enemy.chicken { (⟨100, 360, 70, 55, false⟩ : ChickenState) with
              chickenIsDead := true }] ∧
        (collisionTick 5000 ⟨100, 140, 100, 250, -1, 100, 0⟩
          [Enemy.chicken ⟨100, 360, 70, 55, false⟩]).1.energy
          = (⟨100, 140, 100, 250, -1, 100, 0⟩ : CharState).energy) ∧
    (stompHit ⟨100, 140, 100, 250, -1, 100, 0⟩
        (⟨100, 360, 70, 55, false⟩ : ChickenState).y = false →
      (collisionTick 5000 ⟨100, 140, 100, 250, -1, 100, 0⟩
          [Enemy.chicken ⟨100, 360, 70, 55, false⟩]).2
          = [Enemy.chicken ⟨100, 360, 70, 55, false⟩] ∧
      (charIsHurt 5000 ⟨100, 140, 100, 250, -1, 100, 0⟩ = false →
        (collisionTick 5000 ⟨100, 140, 100, 250, -1, 100, 0⟩
            [Enemy.chicken ⟨100, 360, 70, 55, false⟩]).1.energy
            = max 0 ((⟨100, 140, 100, 250, -1, 100, 0⟩ : CharState).energy
              - 10) ∧
        (0 < (⟨100, 140, 100, 250, -1, 100, 0⟩ : CharState).energy →
          (collisionTick 5000 ⟨100, 140, 100, 250, -1, 100, 0⟩
              [Enemy.chicken ⟨100, 360, 70, 55, false⟩]).1.energy
            < (⟨100, 140, 100, 250, -1, 100, 0⟩ : CharState).energy)) ∧
      (charIsHurt 5000 ⟨100, 140, 100, 250, -1, 100, 0⟩ = true →
        (collisionTick 5000 ⟨100, 140, 100, 250, -1, 100, 0⟩
            [Enemy.chicken ⟨100, 360, 70, 55, false⟩]).1.energy
          = (⟨100, 140, 100, 250, -1, 100, 0⟩ : CharState).energy))) := by
  have hcol : collidingChar (charRect ⟨100, 140, 100, 250, -1, 100, 0⟩)
      (chickenRect ⟨100, 360, 70, 55, false⟩) = true := by
    simp only [charRect, chickenRect, collidingChar, decide_eq_true_eq]
    norm_num
  exact ⟨rfl, hcol,
    stomp_vs_side_hit 5000 ⟨100, 140, 100, 250, -1, 100, 0⟩
      ⟨100, 360, 70, 55, false⟩ rfl hcol⟩

/-! ## C4: gravity convergence and ground snapping -/

/-- The landed state is a fixed point of the gravity step. -/
theorem gravStep_fixed (a g : ℚ) : gravStep a g (g, 0) = (g, 0) := by
  unfold gravStep
  rw [if_neg (by simp)]

/-- The moving branch without the landing snap. -/
theorem gravStep_moving_no_snap (a g : ℚ) (s : ℚ × ℚ)
    (hc : s.1 < g ∨ s.2 > 0) (hns : s.1 - s.2 < g ∨ 0 ≤ s.2 - a) :
    gravStep a g s = (s.1 - s.2, s.2 - a) := by
  unfold gravStep
  rw [if_pos hc]
  dsimp only
  rw [if_neg]
  rintro ⟨h1, h2⟩
  rcases hns with h | h
  · exact h1 h
  · exact absurd h2 (not_lt.mpr h)

/-- The landing snap: transition to at-or-below ground with negative
updated speed puts the entity exactly on the ground at rest. -/
theorem gravStep_snap (a g : ℚ) (s : ℚ × ℚ)
    (hc : s.1 < g ∨ s.2 > 0) (h1 : ¬ s.1 - s.2 < g) (h2 : s.2 - a < 0) :
    gravStep a g s = (g, 0) := by
  unfold gravStep
  rw [if_pos hc]
  dsimp only
  rw [if_pos ⟨h1, h2⟩]

/-- After a tick, a non-projectile entity that started at or above ground
is still at or above ground (`y <= groundY` in the inverted axis). -/
theorem gravStep_le (a g : ℚ) (ha : 0 < a) (s : ℚ × ℚ) (h : s.1 ≤ g) :
    (gravStep a g s).1 ≤ g := by
  unfold gravStep
  split
  next hc =>
    dsimp only
    split
    next hsnap => exact le_rfl
    next hsnap =>
      dsimp only
      by_cases hy1 : s.1 - s.2 < g
      · exact le_of_lt hy1
      · exfalso
        have hv1 : ¬ s.2 - a < 0 := fun hb => hsnap ⟨hy1, hb⟩
        apply hy1
        have hva : a ≤ s.2 := by linarith [not_lt.mp hv1]
        linarith
  next hc => exact h

/-- Falling phase: with negative speed the entity rises toward the ground
line and lands, within a number of ticks bounded by the given `n`. -/
theorem grav_descent_aux (a g : ℚ) (ha : 0 < a) :
    ∀ (n : ℕ) (y v : ℚ), y < g → v < 0 → g - y ≤ n * (-v) →
      ∃ N : ℕ, (gravStep a g)^[N] (y, v) = (g, 0) := by
  intro n
  induction n with
  | zero =>
    intro y v hy hv hb
    exfalso
    simp at hb
    linarith
  | succ n ih =>
    intro y v hy hv hb
    by_cases hy1 : y - v < g
    · have hstep : gravStep a g (y, v) = (y - v, v - a) :=
        gravStep_moving_no_snap a g (y, v) (Or.inl hy) (Or.inl hy1)
      have hv1 : v - a < 0 := by linarith
      have hb1 : g - (y - v) ≤ n * (-(v - a)) := by
        have h2 : (n : ℚ) * (-v) ≤ n * (-(v - a)) := by
          apply mul_le_mul_of_nonneg_left _ (by positivity)
          linarith
        have h3 : g - y + v ≤ n * (-v) := by
          push_cast at hb
          nlinarith
        linarith
      obtain ⟨N, hN⟩ := ih (y - v) (v - a) hy1 hv1 hb1
      refine ⟨N + 1, ?_⟩
      show (gravStep a g)^[N] (gravStep a g (y, v)) = (g, 0)
      rw [hstep]
      exact hN
    · have hstep : gravStep a g (y, v) = (g, 0) :=
        gravStep_snap a g (y, v) (Or.inl hy) hy1 (by linarith)
      refine ⟨1, ?_⟩
      show gravStep a g (y, v) = (g, 0)
      exact hstep

/-- Falling phase, with the tick bound obtained from the archimedean
property of the rationals. -/
theorem grav_descent (a g : ℚ) (ha : 0 < a) (y v : ℚ)
    (hy : y < g) (hv : v < 0) :
    ∃ N : ℕ, (gravStep a g)^[N] (y, v) = (g, 0) := by
  obtain ⟨n, hn⟩ := exists_nat_gt ((g - y) / (-v))
  apply grav_descent_aux a g ha n y v hy hv
  have hvpos : 0 < -v := by linarith
  rw [div_lt_iff₀ hvpos] at hn
  linarith

/-- Rising phase: gravity brings any non-negative upward speed to a
negative one while the entity stays airborne, after which it lands. -/
theorem grav_rise_aux (a g : ℚ) (ha : 0 < a) :
    ∀ (n : ℕ) (y v : ℚ), y < g → 0 ≤ v → v ≤ n * a →
      ∃ N : ℕ, (gravStep a g)^[N] (y, v) = (g, 0) := by
  intro n
  induction n with
  | zero =>
    intro y v hy hv hb
    have hv0 : v = 0 := by
      simp at hb
      linarith
    subst hv0
    have hstep : gravStep a g (y, 0) = (y - 0, 0 - a) :=
      gravStep_moving_no_snap a g (y, 0) (Or.inl hy) (Or.inl (by simpa using hy))
    obtain ⟨N, hN⟩ := grav_descent a g ha (y - 0) (0 - a)
      (by simpa using hy) (by linarith)
    refine ⟨N + 1, ?_⟩
    show (gravStep a g)^[N] (gravStep a g (y, 0)) = (g, 0)
    rw [hstep]
    exact hN
  | succ n ih =>
    intro y v hy hv hb
    have hy1 : y - v < g := by linarith
    have hstep : gravStep a g (y, v) = (y - v, v - a) :=
      gravStep_moving_no_snap a g (y, v) (Or.inl hy) (Or.inl hy1)
    by_cases hva : v - a < 0
    · obtain ⟨N, hN⟩ := grav_descent a g ha (y - v) (v - a) hy1 hva
      refine ⟨N + 1, ?_⟩
      show (gravStep a g)^[N] (gravStep a g (y, v)) = (g, 0)
      rw [hstep]
      exact hN
    · push_neg at hva
      have hb1 : v - a ≤ n * a := by
        push_cast at hb ⊢
        linarith
      obtain ⟨N, hN⟩ := ih (y - v) (v - a) hy1 hva hb1
      refine ⟨N + 1, ?_⟩
      show (gravStep a g)^[N] (gravStep a g (y, v)) = (g, 0)
      rw [hstep]
      exact hN

/-- C4: a non-projectile entity that starts airborne, with any initial
`speedY` and positive acceleration, lands exactly on `groundY` with
`speedY = 0` within a bounded number of gravity ticks, stays there, and
at no tick ends up strictly below ground level. -/
theorem gravity_converges (a g y0 v0 : ℚ) (ha : 0 < a) (hy : y0 < g) :
    (∃ N : ℕ, ∀ M : ℕ, N ≤ M → (gravStep a g)^[M] (y0, v0) = (g, 0)) ∧
    (∀ k : ℕ, ((gravStep a g)^[k] (y0, v0)).1 ≤ g) := by
  constructor
  · obtain ⟨N, hN⟩ : ∃ N : ℕ, (gravStep a g)^[N] (y0, v0) = (g, 0) := by
      rcases lt_or_le v0 0 with hv | hv
      · exact grav_descent a g ha y0 v0 hy hv
      · obtain ⟨n, hn⟩ := exists_nat_gt (v0 / a)
        apply grav_rise_aux a g ha n y0 v0 hy hv
        rw [div_lt_iff₀ ha] at hn
        linarith
    refine ⟨N, fun M hM => ?_⟩
    obtain ⟨d, rfl⟩ := Nat.exists_eq_add_of_le hM
    rw [add_comm, Function.iterate_add_apply, hN,
      Function.iterate_fixed (gravStep_fixed a g)]
  · intro k
    exact iterate_preserves (gravStep a g) (fun s => s.1 ≤ g)
      (fun s hs => gravStep_le a g ha s hs) k (y0, v0) (le_of_lt hy)

/-- Witness for C4 at the character constants: acceleration 2.6, ground
level 180, start airborne at 100 with jump speed 25. -/
theorem gravity_converges_witness :
    (0 : ℚ) < 13 / 5 ∧ (100 : ℚ) < 180 ∧
    ((∃ N : ℕ, ∀ M : ℕ, N ≤ M →
        (gravStep (13 / 5) 180)^[M] (100, 25) = (180, 0)) ∧
      (∀ k : ℕ, ((gravStep (13 / 5) 180)^[k]
        ((100 : ℚ), (25 : ℚ))).1 ≤ 180)) :=
  ⟨by norm_num, by norm_num,
    gravity_converges (13 / 5) 180 100 25 (by norm_num) (by norm_num)⟩

/-! ## C9: Endboss phase monotonicity and death rendering -/

/-- `hitEndBoss` changes only energy and hit timestamp, never the phase. -/
theorem bossPhase_hitEndBoss (now : ℤ) (b : EndbossState) :
    bossPhase (hitEndBoss now b) = bossPhase b := by
  unfold hitEndBoss
  dsimp only
  split
  next => rfl
  next => rfl

/-- Every boss event moves the phase forward or leaves it unchanged:
idle, alert and attack are never revisited once left. -/
theorem bossStep_phase_mono (ev : BossEvent) (b : EndbossState) :
    bossPhase b ≤ bossPhase (bossStep ev b).1 := by
  cases ev with
  | activate charX =>
    show bossPhase b ≤ bossPhase (checkEndbossActivation charX b)
    unfold checkEndbossActivation
    split
    next h =>
      have hb : b.hadFirstContact = false := by
        rcases h with ⟨-, h2⟩
        simpa using h2
      unfold bossPhase
      simp [hb]
    next => exact le_rfl
  | hitByBottle now =>
    show bossPhase b ≤ bossPhase (hitEndBoss now b)
    rw [bossPhase_hitEndBoss]
  | animTick now =>
    show bossPhase b ≤ bossPhase (endBossAnimationTick now b).1
    unfold endBossAnimationTick
    by_cases hstop : b.animStopped = true
    · rw [if_pos hstop]
    · rw [if_neg hstop]
      by_cases hdead : isDeadEndBoss b = true
      · rw [if_pos hdead]
        exact le_rfl
      · rw [if_neg hdead]
        by_cases hhurt : isHurtEndBoss now b = true
        · rw [if_pos hhurt]
        · rw [if_neg hhurt]
          by_cases halert : b.hadFirstContact = true ∧ b.i < 15
          · rw [if_pos halert]
            obtain ⟨h1, h2⟩ := halert
            unfold bossPhase
            dsimp only
            rw [if_neg (not_not_intro h1), if_neg (not_not_intro h1),
              if_pos h2]
            split
            next => exact le_rfl
            next => omega
          · rw [if_neg halert]
            by_cases hfc : b.hadFirstContact = true
            · rw [if_pos hfc]
              exact le_rfl
            · rw [if_neg hfc]
  | walkTick now => exact le_rfl

/-- Deadness is absorbing: no event revives the boss. -/
theorem bossStep_dead_stays (ev : BossEvent) (b : EndbossState)
    (h : isDeadEndBoss b = true) : isDeadEndBoss (bossStep ev b).1 = true := by
  have he : b.energyEndBoss ≤ 0 := by simpa [isDeadEndBoss] using h
  cases ev with
  | activate charX =>
    show isDeadEndBoss (checkEndbossActivation charX b) = true
    unfold checkEndbossActivation
    split <;> simpa [isDeadEndBoss] using he
  | hitByBottle now =>
    show isDeadEndBoss (hitEndBoss now b) = true
    unfold hitEndBoss
    dsimp only
    split
    next => simp [isDeadEndBoss]
    next hneg =>
      simp only [isDeadEndBoss, decide_eq_true_eq]
      omega
  | animTick now =>
    show isDeadEndBoss (endBossAnimationTick now b).1 = true
    unfold endBossAnimationTick
    by_cases hstop : b.animStopped = true
    · rw [if_pos hstop]
      exact h
    · rw [if_neg hstop, if_pos h]
      exact h
  | walkTick now => exact h

/-- A dead boss renders at most the death animation on any event. -/
theorem bossStep_dead_render (ev : BossEvent) (b : EndbossState)
    (h : isDeadEndBoss b = true) :
    (bossStep ev b).2 = none ∨ (bossStep ev b).2 = some BossAnim.dead := by
  cases ev with
  | activate charX => exact Or.inl rfl
  | hitByBottle now => exact Or.inl rfl
  | animTick now =>
    show (endBossAnimationTick now b).2 = none ∨
      (endBossAnimationTick now b).2 = some BossAnim.dead
    unfold endBossAnimationTick
    by_cases hstop : b.animStopped = true
    · rw [if_pos hstop]
      exact Or.inl rfl
    · rw [if_neg hstop, if_pos h]
      exact Or.inr rfl
  | walkTick now =>
    show bossWalkTick now b = none ∨ bossWalkTick now b = some BossAnim.dead
    unfold bossWalkTick
    rw [if_neg]
    · exact Or.inl rfl
    · rintro ⟨-, -, h3⟩
      simp [h] at h3

/-- Phase monotonicity along any event sequence. -/
theorem bossRun_phase_mono (evs : List BossEvent) :
    ∀ (b : EndbossState), bossPhase b ≤ bossPhase (bossRun evs b) := by
  induction evs with
  | nil => intro b; exact le_rfl
  | cons ev rest ih =>
    intro b
    calc bossPhase b ≤ bossPhase (bossStep ev b).1 := bossStep_phase_mono ev b
    _ ≤ bossPhase (bossRun rest (bossStep ev b).1) := ih _
    _ = bossPhase (bossRun (ev :: rest) b) := rfl

/-- Along any event sequence from a dead boss, only the death animation
(or nothing) is ever rendered. -/
theorem bossRenders_dead (evs : List BossEvent) :
    ∀ (b : EndbossState), isDeadEndBoss b = true →
      ∀ r ∈ bossRenders evs b, r = none ∨ r = some BossAnim.dead := by
  induction evs with
  | nil => intro b _ r hr; simp [bossRenders] at hr
  | cons ev rest ih =>
    intro b hb r hr
    unfold bossRenders at hr
    rcases List.mem_cons.mp hr with h | h
    · subst h
      exact bossStep_dead_render ev b hb
    · exact ih (bossStep ev b).1 (bossStep_dead_stays ev b hb) r h

/-- C9: over any sequence of activation, bottle-hit, behaviour-tick and
walk-tick events, the Endboss's behaviour phase only advances
idle (0) to alert (1) to attack (2), never backward; and once
`energyEndBoss <= 0`, no idle, alert or attack frame is ever rendered
again — each later tick renders the death animation or nothing. -/
theorem endboss_phase_monotone (evs : List BossEvent) (b : EndbossState) :
    bossPhase b ≤ bossPhase (bossRun evs b) ∧
    (isDeadEndBoss b = true →
      ∀ r ∈ bossRenders evs b, r = none ∨ r = some BossAnim.dead) :=
  ⟨bossRun_phase_mono evs b, fun h => bossRenders_dead evs b h⟩

/-- Witness for C9 on a dead boss and a sample event sequence. -/
theorem endboss_phase_monotone_witness :
    isDeadEndBoss ⟨true, 15, 0, 0, 2500, 5, false⟩ = true ∧
    (bossPhase ⟨true, 15, 0, 0, 2500, 5, false⟩ ≤
      bossPhase (bossRun
        [BossEvent.animTick 1000, BossEvent.walkTick 1100,
         BossEvent.activate 2400, BossEvent.hitByBottle 1200,
         BossEvent.animTick 1300]
        ⟨true, 15, 0, 0, 2500, 5, false⟩) ∧
    (isDeadEndBoss ⟨true, 15, 0, 0, 2500, 5, false⟩ = true →
      ∀ r ∈ bossRenders
        [BossEvent.animTick 1000, BossEvent.walkTick 1100,
         BossEvent.activate 2400, BossEvent.hitByBottle 1200,
         BossEvent.animTick 1300]
        ⟨true, 15, 0, 0, 2500, 5, false⟩,
        r = none ∨ r = some BossAnim.dead)) := by
  constructor
  · simp [isDeadEndBoss]
  · exact endboss_phase_monotone
      [BossEvent.animTick 1000, BossEvent.walkTick 1100,
       BossEvent.activate 2400, BossEvent.hitByBottle 1200,
       BossEvent.animTick 1300]
      ⟨true, 15, 0, 0, 2500, 5, false⟩

end ElPolloLoco
